import Mathlib

/-!
# Verification of the bypasser configuration core

A shallow embedding, in Lean 4, of the configuration codec, the
address/port allocator, the peer-block remover and the idempotent file
mutator of the `bypasser` Go repository (package `bypasser`, files
`parse.go` and `manager.go`).

Go strings are modelled as `List Char`.  Each Go helper from the source
is translated function-by-function; filesystem access in the allocator
is abstracted to the list of config-file contents that the Go code reads
(in the enumeration order of `ListVPNs`), and `os` errors are out of
scope.  Functions returning `(T, error)` in Go are modelled as
`Option T` (`none` meaning the error return).
-/

/-- Convert a Lean string literal to the `List Char` representation used
throughout this development. -/
def str (s : String) : List Char := s.data

/-- The whitespace predicate of Go `unicode.IsSpace`, restricted to the
code points it accepts: ASCII whitespace plus the Unicode space
characters (NEL, NBSP, OGHAM, the `Zs`, `Zl`, `Zp` spaces). -/
def goIsSpace (c : Char) : Bool :=
  c.toNat = 0x20 ∨ c.toNat = 0x09 ∨ c.toNat = 0x0A ∨ c.toNat = 0x0D ∨
  c.toNat = 0x0B ∨ c.toNat = 0x0C ∨
  c.toNat = 0x85 ∨ c.toNat = 0xA0 ∨ c.toNat = 0x1680 ∨
  (0x2000 ≤ c.toNat ∧ c.toNat ≤ 0x200A) ∨
  c.toNat = 0x2028 ∨ c.toNat = 0x2029 ∨ c.toNat = 0x202F ∨
  c.toNat = 0x205F ∨ c.toNat = 0x3000

/-- Drop the longest run of characters satisfying `p` from the front. -/
def trimLeftP (p : Char → Bool) (s : List Char) : List Char := s.dropWhile p

/-- Drop the longest run of characters satisfying `p` from the back. -/
def trimRightP (p : Char → Bool) (s : List Char) : List Char :=
  (s.reverse.dropWhile p).reverse

/-- Go `strings.TrimSpace`. -/
def goTrimSpace (s : List Char) : List Char :=
  trimRightP goIsSpace (trimLeftP goIsSpace s)

/-- Go `strings.Split(s, string(sep))` for a one-character separator:
the list of (possibly empty) pieces between occurrences of `sep`. -/
def splitOnChar (sep : Char) : List Char → List (List Char)
  | [] => [[]]
  | c :: rest =>
    if c = sep then [] :: splitOnChar sep rest
    else
      match splitOnChar sep rest with
      | h :: t => (c :: h) :: t
      | [] => [[c]]

/-- Go `strings.Join(pieces, string(sep))` for a one-character separator. -/
def joinWithChar (sep : Char) : List (List Char) → List Char
  | [] => []
  | [x] => x
  | x :: y :: xs => x ++ sep :: joinWithChar sep (y :: xs)

/-- Go `strings.HasPrefix(s, p)`. -/
def goHasPfx (p s : List Char) : Bool := p.isPrefixOf s

/-- Go `strings.HasSuffix(s, p)`. -/
def goHasSfx (p s : List Char) : Bool := p.isSuffixOf s

/-- Go `strings.Contains(s, sub)`. -/
def goContains (s sub : List Char) : Bool :=
  match s with
  | [] => sub.isPrefixOf []
  | c :: rest => sub.isPrefixOf (c :: rest) || goContains rest sub

/-- Map an ASCII upper-case letter to lower case, other characters kept. -/
def asciiLower (c : Char) : Char :=
  if 'A' ≤ c ∧ c ≤ 'Z' then Char.ofNat (c.toNat + 32) else c

/-- Go `strings.EqualFold`, restricted to ASCII simple folding (the only
folding the identifiers handled by this repository exercise): the two
strings have the same length and corresponding characters agree up to
ASCII case. -/
def goEqualFold : List Char → List Char → Bool
  | [], [] => true
  | a :: as, b :: bs => asciiLower a = asciiLower b && goEqualFold as bs
  | _, _ => false

/-- Split a line at its first `=`: the text before it and the text after
it, or `none` when the line has no `=` (the `strings.Index` step of
`splitKV` in `parse.go`). -/
def splitAtEq : List Char → Option (List Char × List Char)
  | [] => none
  | c :: rest =>
    if c = '=' then some ([], rest)
    else (splitAtEq rest).map fun pr => (c :: pr.1, pr.2)

/-- `splitKV` from `parse.go`: split on the first `=`, trim both sides,
fail when there is no `=` or the trimmed key is empty.  The Go triple
`(key, val, ok)` is modelled as `Option (key × val)`. -/
def splitKV (line : List Char) : Option (List Char × List Char) :=
  match splitAtEq line with
  | none => none
  | some pr =>
    if goTrimSpace pr.1 = [] then none
    else some (goTrimSpace pr.1, goTrimSpace pr.2)

/-- `isSectionHeader` from `parse.go`. -/
def isSectionHeader (line : List Char) : Bool :=
  goHasPfx (str "[") line && goHasSfx (str "]") line

/-- Is the character one of the brackets trimmed by
`strings.Trim(line, "[]")`. -/
def isBracketChar (c : Char) : Bool := c = '[' ∨ c = ']'

/-- The section name extracted from a header line in `parse.go`:
`strings.TrimSpace(strings.Trim(line, "[]"))`. -/
def sectionOfHeader (line : List Char) : List Char :=
  goTrimSpace (trimRightP isBracketChar (trimLeftP isBracketChar line))

/-- Parse a non-empty all-digit string as a natural number (the digit
loop of Go `strconv.Atoi`). -/
def parseDigits (s : List Char) : Option Nat :=
  if s = [] then none
  else if s.all (·.isDigit) then
    some (s.foldl (fun a c => a * 10 + (c.toNat - 48)) 0)
  else none

/-- Go `strconv.Atoi` on a 64-bit platform: optional sign, decimal
digits, error when the value does not fit in `int64`. -/
def goAtoi (s : List Char) : Option Int :=
  match s with
  | '+' :: rest =>
    (parseDigits rest).bind fun n =>
      if (n : Int) ≤ 2 ^ 63 - 1 then some (n : Int) else none
  | '-' :: rest =>
    (parseDigits rest).bind fun n =>
      if (n : Int) ≤ 2 ^ 63 then some (-(n : Int)) else none
  | _ =>
    (parseDigits s).bind fun n =>
      if (n : Int) ≤ 2 ^ 63 - 1 then some (n : Int) else none

/-- Decimal digits of a natural number, most significant first, with
explicit fuel so that the recursion is structural. -/
def natToStrAux : Nat → Nat → List Char
  | 0, _ => []
  | fuel + 1, n =>
    if n < 10 then [Char.ofNat (48 + n)]
    else natToStrAux fuel (n / 10) ++ [Char.ofNat (48 + n % 10)]

/-- Decimal rendering of a natural number (Go `strconv.Itoa` on
non-negative values). -/
def natToStr (n : Nat) : List Char := natToStrAux (n + 1) n

/-- Decimal rendering of an integer, as produced by Go `fmt.Sprintf`
with verb `%d`. -/
def intToStr (i : Int) : List Char :=
  if i < 0 then '-' :: natToStr i.natAbs else natToStr i.toNat

/-- The text of `addr` before its first `/`, or all of it (the
`strings.Index(base, "/")` step of `parseBPAddress`). -/
def takeUntilSlash : List Char → List Char
  | [] => []
  | c :: rest => if c = '/' then [] else c :: takeUntilSlash rest

/-- `parseBPAddress` from `parse.go`: strip an optional `/mask` suffix,
require the `"<pfx>."` text at the front, split the remainder on `.`
into exactly two decimal octets.  The Go `(vpnOctet, hostOctet, error)`
is modelled as `Option (vpnOctet × hostOctet)`. -/
def parseBPAddress (pfx addr : List Char) : Option (Int × Int) :=
  if goHasPfx (pfx ++ ['.']) (takeUntilSlash addr) then
    match splitOnChar '.' ((takeUntilSlash addr).drop (pfx ++ ['.']).length) with
    | [a, b] =>
      match goAtoi a, goAtoi b with
      | some v, some h => some (v, h)
      | _, _ => none
    | _ => none
  else none

/-- `normalizeCIDR` from `parse.go`: append `/<mask>` unless the address
already contains a `/`. -/
def normalizeCIDR (addr : List Char) (mask : Int) : List Char :=
  if addr.contains '/' then addr else addr ++ '/' :: intToStr mask

/-! ## The INI-like codec (`firstSectionValue`, `allSectionValues`) -/

/-- The scanning loop of `firstSectionValue` in `parse.go`, over the
already-split lines, with the current section as accumulator. -/
def firstSectionValueLoop (sectionName key : List Char) :
    List (List Char) → List Char → List Char
  | [], _ => []
  | raw :: rest, sect =>
    if goTrimSpace raw = [] ∨ goHasPfx (str "#") (goTrimSpace raw) = true ∨
        goHasPfx (str ";") (goTrimSpace raw) = true then
      firstSectionValueLoop sectionName key rest sect
    else if isSectionHeader (goTrimSpace raw) then
      firstSectionValueLoop sectionName key rest (sectionOfHeader (goTrimSpace raw))
    else if sect ≠ sectionName then
      firstSectionValueLoop sectionName key rest sect
    else
      match splitKV (goTrimSpace raw) with
      | some kv =>
        if goEqualFold kv.1 key then kv.2
        else firstSectionValueLoop sectionName key rest sect
      | none => firstSectionValueLoop sectionName key rest sect

/-- `firstSectionValue` from `parse.go`: the value of the first
case-insensitive key match inside the requested section, or empty. -/
def firstSectionValue (content sectionName key : List Char) : List Char :=
  firstSectionValueLoop sectionName key (splitOnChar '\n' content) []

/-- The scanning loop of `allSectionValues` in `parse.go`. -/
def allSectionValuesLoop (sectionName key : List Char) :
    List (List Char) → List Char → List (List Char)
  | [], _ => []
  | raw :: rest, sect =>
    if goTrimSpace raw = [] ∨ goHasPfx (str "#") (goTrimSpace raw) = true ∨
        goHasPfx (str ";") (goTrimSpace raw) = true then
      allSectionValuesLoop sectionName key rest sect
    else if isSectionHeader (goTrimSpace raw) then
      allSectionValuesLoop sectionName key rest (sectionOfHeader (goTrimSpace raw))
    else if sect ≠ sectionName then
      allSectionValuesLoop sectionName key rest sect
    else
      match splitKV (goTrimSpace raw) with
      | some kv =>
        if goEqualFold kv.1 key then
          kv.2 :: allSectionValuesLoop sectionName key rest sect
        else allSectionValuesLoop sectionName key rest sect
      | none => allSectionValuesLoop sectionName key rest sect

/-- `allSectionValues` from `parse.go`: every matching value, in file
order. -/
def allSectionValues (content sectionName key : List Char) : List (List Char) :=
  allSectionValuesLoop sectionName key (splitOnChar '\n' content) []

/-! ## The peer-block locator/remover (`removePeerBlock`) -/

/-- `PeerRef` from the package: a `(vpn, peer)` pair of names. -/
structure PeerRef where
  VPN : List Char
  Peer : List Char

/-- `peerBlockMatches` from `parse.go`: accept on the ownership-tag
comment containing both `vpn=<ref.VPN>` and `peer=<ref.Peer>`, else fall
back to any `AllowedIPs` key in the block whose trimmed value equals the
trimmed probe address. -/
def peerBlockMatches (block : List (List Char)) (metaLine : List Char)
    (ref : PeerRef) (allowedIP : List Char) : Bool :=
  if metaLine ≠ [] ∧ goContains metaLine (str "vpn=" ++ ref.VPN) = true ∧
      goContains metaLine (str "peer=" ++ ref.Peer) = true then
    true
  else
    block.any fun raw =>
      match splitKV (goTrimSpace raw) with
      | some kv =>
        goEqualFold kv.1 (str "AllowedIPs") &&
          decide (goTrimSpace kv.2 = goTrimSpace allowedIP)
      | none => false

/-- Number of leading lines that are not section headers: the extent of
a block scanned by the `j` loop of `removePeerBlock`. -/
def blockExtent : List (List Char) → Nat
  | [] => 0
  | l :: ls => if isSectionHeader (goTrimSpace l) then 0 else blockExtent ls + 1

/-- The index one past the block starting at line `i`: the final value
of `j` in `removePeerBlock`. -/
def blockEndAt (lines : List (List Char)) (i : Nat) : Nat :=
  (i + 1) + blockExtent (lines.drop (i + 1))

/-- The lines `lines[i:j]` of the block starting at line `i`. -/
def blockAt (lines : List (List Char)) (i : Nat) : List (List Char) :=
  (lines.drop i).take (blockEndAt lines i - i)

/-- The candidate ownership-tag line captured for the `[Peer]` line at
index `i`: the trimmed previous line when it starts with
`# bp-managed:`, else empty. -/
def metaAt (lines : List (List Char)) (i : Nat) : List Char :=
  if i = 0 then []
  else if goHasPfx (str "# bp-managed:") (goTrimSpace (lines.getD (i - 1) [])) then
    goTrimSpace (lines.getD (i - 1) [])
  else []

/-- Does the last accumulated output line trim to `m` (the
`strings.TrimSpace(out[len(out)-1]) == m` checks of `removePeerBlock`),
with `false` for an empty accumulator. -/
def lastTrimEq (out : List (List Char)) (m : List Char) : Bool :=
  match out.getLast? with
  | some l => decide (goTrimSpace l = m)
  | none => false

/-- Is the trimmed line blank or a `#`/`;` comment (the tail-scan test
of `removePeerBlock`). -/
def isDecoration (raw : List Char) : Bool :=
  goTrimSpace raw = [] ∨ goHasPfx (str "#") (goTrimSpace raw) = true ∨
    goHasPfx (str ";") (goTrimSpace raw) = true

/-- The `for k := j - 1; k > i; k--` scan of `removePeerBlock`: walk
down from `j - 1` while the line is blank/comment decoration, returning
the start of the decoration run (or the initial `cur = j`). -/
def tailScan (lines : List (List Char)) (i : Nat) : Nat → Nat → Nat
  | 0, cur => cur
  | k + 1, cur =>
    if k + 1 > i ∧ isDecoration (lines.getD (k + 1) []) = true then
      tailScan lines i k (k + 1)
    else cur

/-- The main loop of `removePeerBlock`, with explicit fuel (each Go
iteration advances `i` by at least one, so `lines.length` steps
suffice).  `out` is the accumulated output, `removed` the flag. -/
def removeLoop (lines : List (List Char)) (ref : PeerRef) (allowedIP : List Char) :
    Nat → Nat → List (List Char) → Bool → List (List Char) × Bool
  | 0, _, out, removed => (out, removed)
  | fuel + 1, i, out, removed =>
    if i < lines.length then
      if goTrimSpace (lines.getD i []) ≠ str "[Peer]" then
        removeLoop lines ref allowedIP fuel (i + 1) (out ++ [lines.getD i []]) removed
      else if peerBlockMatches (blockAt lines i) (metaAt lines i) ref allowedIP then
        removeLoop lines ref allowedIP fuel (blockEndAt lines i)
          (removeAbsorbTail lines i (blockEndAt lines i)
            (removeDropBlank (removeDropMeta out (metaAt lines i))))
          true
      else
        removeLoop lines ref allowedIP fuel (i + 1) (out ++ [lines.getD i []]) removed
    else (out, removed)
where
  /-- Drop the tag comment line when it is the line just appended. -/
  removeDropMeta (out : List (List Char)) (metaLine : List Char) : List (List Char) :=
    if metaLine ≠ [] ∧ lastTrimEq out metaLine = true then out.dropLast else out
  /-- Collapse one trailing blank line above the removed section. -/
  removeDropBlank (out : List (List Char)) : List (List Char) :=
    if lastTrimEq out [] = true then out.dropLast else out
  /-- Re-absorb trailing blank/comment lines that belong to the next block. -/
  removeAbsorbTail (lines : List (List Char)) (i j : Nat) (out : List (List Char)) :
      List (List Char) :=
    if tailScan lines i (j - 1) j < j then
      out ++ (lines.drop (tailScan lines i (j - 1) j)).take (j - tailScan lines i (j - 1) j)
    else out

/-- `removePeerBlock` from `parse.go`: split into lines, run the removal
loop, re-join, and normalize trailing newlines to exactly one (or none
when nothing remains). -/
def removePeerBlock (content : List Char) (ref : PeerRef) (allowedIP : List Char) :
    List Char × Bool :=
  ((fun t => if t = [] then [] else t ++ ['\n'])
      (trimRightP (fun c => c = '\n')
        (joinWithChar '\n'
          (removeLoop (splitOnChar '\n' content) ref allowedIP
            (splitOnChar '\n' content).length 0 [] false).1)),
    (removeLoop (splitOnChar '\n' content) ref allowedIP
      (splitOnChar '\n' content).length 0 [] false).2)

/-- Does the `[Peer]` block starting at line `i` match the reference or
probe address, exactly as the `removePeerBlock` loop tests it. -/
def matchesAt (lines : List (List Char)) (ref : PeerRef) (allowedIP : List Char)
    (i : Nat) : Bool :=
  decide (goTrimSpace (lines.getD i []) = str "[Peer]") &&
    peerBlockMatches (blockAt lines i) (metaAt lines i) ref allowedIP

/-- No `[Peer]` block anywhere in `content` matches `(ref, allowedIP)`. -/
def noPeerBlockMatch (content : List Char) (ref : PeerRef) (allowedIP : List Char) :
    Bool :=
  (List.range (splitOnChar '\n' content).length).all fun i =>
    !(matchesAt (splitOnChar '\n' content) ref allowedIP i)

/-! ## The address/port allocator (`manager.go`) -/

/-- `nextAvailablePort` from `manager.go`, over the contents of the
existing VPN config files (the bytes the Go code reads for each name in
`ListVPNs()` order).  `none` models the range-exhaustion error. -/
def nextAvailablePort (minPort maxPort : Int) (files : List (List Char)) : Option Int :=
  if (files.foldl (fun acc f =>
        if firstSectionValue f (str "Interface") (str "ListenPort") = [] then acc
        else
          match goAtoi (firstSectionValue f (str "Interface") (str "ListenPort")) with
          | some n => if n > acc then n else acc
          | none => acc) (minPort - 1) + 1 |>
        fun next => if next < minPort then minPort else next) > maxPort then
    none
  else
    some ((files.foldl (fun acc f =>
        if firstSectionValue f (str "Interface") (str "ListenPort") = [] then acc
        else
          match goAtoi (firstSectionValue f (str "Interface") (str "ListenPort")) with
          | some n => if n > acc then n else acc
          | none => acc) (minPort - 1) + 1 |>
        fun next => if next < minPort then minPort else next))

/-- `nextVPNSubnetOctet` from `manager.go`, over the contents of the
existing VPN config files. -/
def nextVPNSubnetOctet (pfx : List Char) (files : List (List Char)) : Option Int :=
  if files.foldl (fun acc f =>
        if firstSectionValue f (str "Interface") (str "Address") = [] then acc
        else
          match parseBPAddress pfx (firstSectionValue f (str "Interface") (str "Address")) with
          | some pr => if pr.1 > acc then pr.1 else acc
          | none => acc) 0 + 1 > 254 then
    none
  else
    some (files.foldl (fun acc f =>
        if firstSectionValue f (str "Interface") (str "Address") = [] then acc
        else
          match parseBPAddress pfx (firstSectionValue f (str "Interface") (str "Address")) with
          | some pr => if pr.1 > acc then pr.1 else acc
          | none => acc) 0 + 1)

/-- `nextPeerHostOctet` from `manager.go`, over the already-loaded VPN
config text. -/
def nextPeerHostOctet (pfx : List Char) (vpnConfig : List Char) (vpnOctet : Int) :
    Option Int :=
  if (allSectionValues vpnConfig (str "Peer") (str "AllowedIPs")).foldl (fun acc ip =>
        match parseBPAddress pfx ip with
        | some pr => if pr.1 ≠ vpnOctet then acc else if pr.2 > acc then pr.2 else acc
        | none => acc) 1 + 1 > 254 then
    none
  else
    some ((allSectionValues vpnConfig (str "Peer") (str "AllowedIPs")).foldl (fun acc ip =>
        match parseBPAddress pfx ip with
        | some pr => if pr.1 ≠ vpnOctet then acc else if pr.2 > acc then pr.2 else acc
        | none => acc) 1 + 1)

/-! ## Rendering (`renderVPNConfig` from `manager.go`) -/

/-- `renderVPNConfig` from `manager.go`: the canonical VPN config
template with the ownership tag line, interpolated exactly as the Go
`fmt.Sprintf` calls do.  `pfx` is `cfg.SubnetPrefix`, `ifaceMask` is
`cfg.InterfaceMask`. -/
def renderVPNConfig (pfx : List Char) (ifaceMask : Int)
    (vpnName ifaceName privateKey : List Char) (port vpnOctet : Int)
    (publicIface : List Char) : List Char :=
  str "# bp-managed: vpn=" ++ vpnName ++
  '\n' :: str "[Interface]" ++
  '\n' :: str "PrivateKey = " ++ privateKey ++
  '\n' :: str "ListenPort = " ++ intToStr port ++
  '\n' :: str "Address = " ++
    (pfx ++ '.' :: intToStr vpnOctet ++ str ".1/" ++ intToStr ifaceMask) ++
  '\n' :: str "PostUp = " ++
    (str "iptables -t nat -A POSTROUTING -s " ++
      (pfx ++ '.' :: intToStr vpnOctet ++ str ".0/" ++ intToStr ifaceMask) ++
      str " -o " ++ publicIface ++
      str " -j MASQUERADE; iptables -A INPUT -p udp -m udp --dport " ++
      intToStr port ++ str " -j ACCEPT; iptables -A FORWARD -i " ++ ifaceName ++
      str " -j ACCEPT; iptables -A FORWARD -o " ++ ifaceName ++ str " -j ACCEPT;") ++
  '\n' :: str "PostDown = " ++
    (str "iptables -t nat -D POSTROUTING -s " ++
      (pfx ++ '.' :: intToStr vpnOctet ++ str ".0/" ++ intToStr ifaceMask) ++
      str " -o " ++ publicIface ++
      str " -j MASQUERADE; iptables -D INPUT -p udp -m udp --dport " ++
      intToStr port ++ str " -j ACCEPT; iptables -D FORWARD -i " ++ ifaceName ++
      str " -j ACCEPT; iptables -D FORWARD -o " ++ ifaceName ++ str " -j ACCEPT;") ++
  ['\n']

/-! ## The idempotent file mutator (`writeFile` from `manager.go`) -/

/-- A filesystem abstraction for `writeFile`: an association list from
paths to file contents, most recent binding first. -/
def fsLookup (fs : List (List Char × List Char)) (path : List Char) :
    Option (List Char) :=
  match fs with
  | [] => none
  | e :: rest => if e.1 = path then some e.2 else fsLookup rest path

/-- `writeFile` from `manager.go`, over the filesystem abstraction: read
the current content; if byte-identical to `data` do nothing and record
no change; otherwise write and record an `updated` (file existed) or
`created` (file absent) change.  Directory creation and permission bits
are outside the model. -/
def writeFile (fs : List (List Char × List Char)) (path data : List Char) :
    List (List Char × List Char) × Option (List Char) :=
  match fsLookup fs path with
  | some old =>
    if old = data then (fs, none) else ((path, data) :: fs, some (str "updated"))
  | none => ((path, data) :: fs, some (str "created"))

/-- The number of change records produced by one `writeFile` call. -/
def changeCount : Option (List Char) → Nat
  | none => 0
  | some _ => 1

/-! ## Spec-side descriptions

The definitions below follow the words of the specification (not the
source); the refinement theorems compare them with the source-derived
definitions above. -/

/-- Following the spec of the codec: the ordered `(section, key, value)`
entries of the content, tracking the current section, skipping blank and
`#`/`;` comment lines, splitting the remaining lines on their first `=`
with both sides trimmed. -/
def iniEntriesLoop : List (List Char) → List Char →
    List (List Char × List Char × List Char)
  | [], _ => []
  | raw :: rest, sect =>
    if goTrimSpace raw = [] ∨ goHasPfx (str "#") (goTrimSpace raw) = true ∨
        goHasPfx (str ";") (goTrimSpace raw) = true then
      iniEntriesLoop rest sect
    else if isSectionHeader (goTrimSpace raw) then
      iniEntriesLoop rest (sectionOfHeader (goTrimSpace raw))
    else
      match splitKV (goTrimSpace raw) with
      | some kv => (sect, kv.1, kv.2) :: iniEntriesLoop rest sect
      | none => iniEntriesLoop rest sect

/-- The `(section, key, value)` entries of a content string, current
section starting empty. -/
def iniEntries (content : List Char) : List (List Char × List Char × List Char) :=
  iniEntriesLoop (splitOnChar '\n' content) []

/-- Following the spec of `firstValue`: the value of the first entry
whose section equals the request exactly and whose key matches
case-insensitively, or empty. -/
def specFirstValue (content sectionName key : List Char) : List Char :=
  match (iniEntries content).find? fun e =>
      decide (e.1 = sectionName) && goEqualFold e.2.1 key with
  | some e => e.2.2
  | none => []

/-- Following the spec of `allValues`: every matching value in order. -/
def specAllValues (content sectionName key : List Char) : List (List Char) :=
  ((iniEntries content).filter fun e =>
      decide (e.1 = sectionName) && goEqualFold e.2.1 key).map fun e => e.2.2

/-- Following the spec of next-port allocation: the ListenPort values
that parse, one read per file. -/
def specListenPorts (files : List (List Char)) : List Int :=
  files.filterMap fun f =>
    if firstSectionValue f (str "Interface") (str "ListenPort") = [] then none
    else goAtoi (firstSectionValue f (str "Interface") (str "ListenPort"))

/-- Following the spec of next-port allocation: maximum seen with floor
`minPort - 1`, candidate `max + 1` clamped up to `minPort`, error
exactly when the candidate exceeds `maxPort`. -/
def specNextAvailablePort (minPort maxPort : Int) (files : List (List Char)) :
    Option Int :=
  if (fun next => if next < minPort then minPort else next)
        ((specListenPorts files).foldl max (minPort - 1) + 1) > maxPort then none
  else
    some ((fun next => if next < minPort then minPort else next)
      ((specListenPorts files).foldl max (minPort - 1) + 1))

/-- Following the spec of next-VPN-octet allocation: the vpn octets of
the Interface addresses that parse against the two-octet `pfx`. -/
def specVPNOctets (pfx : List Char) (files : List (List Char)) : List Int :=
  files.filterMap fun f =>
    if firstSectionValue f (str "Interface") (str "Address") = [] then none
    else (parseBPAddress pfx (firstSectionValue f (str "Interface") (str "Address"))).map
      fun pr => pr.1

/-- Following the spec of next-VPN-octet allocation: maximum seen with
default `0`, candidate `max + 1`, error exactly when it exceeds 254. -/
def specNextVPNSubnetOctet (pfx : List Char) (files : List (List Char)) : Option Int :=
  if (specVPNOctets pfx files).foldl max 0 + 1 > 254 then none
  else some ((specVPNOctets pfx files).foldl max 0 + 1)

/-- Following the spec of next-peer-host-octet allocation: the host
octets of the `[Peer].AllowedIPs` entries that parse against `pfx` and
whose vpn octet equals the target. -/
def specPeerHostOctets (pfx : List Char) (vpnConfig : List Char) (vpnOctet : Int) :
    List Int :=
  (allSectionValues vpnConfig (str "Peer") (str "AllowedIPs")).filterMap fun ip =>
    (parseBPAddress pfx ip).bind fun pr =>
      if pr.1 = vpnOctet then some pr.2 else none

/-- Following the spec of next-peer-host-octet allocation: maximum host
octet with floor `1`, candidate `max + 1`, error exactly when it
exceeds 254. -/
def specNextPeerHostOctet (pfx : List Char) (vpnConfig : List Char) (vpnOctet : Int) :
    Option Int :=
  if (specPeerHostOctets pfx vpnConfig vpnOctet).foldl max 1 + 1 > 254 then none
  else some ((specPeerHostOctets pfx vpnConfig vpnOctet).foldl max 1 + 1)

/-- Following the spec of the match policy, clause (a): the captured tag
comment contains both `vpn=<ref.VPN>` and `peer=<ref.Peer>`. -/
def tagMatches (metaLine : List Char) (ref : PeerRef) : Bool :=
  metaLine ≠ [] ∧ goContains metaLine (str "vpn=" ++ ref.VPN) = true ∧
    goContains metaLine (str "peer=" ++ ref.Peer) = true

/-- Following the spec of the match policy, clause (b): some
`AllowedIPs` key inside the block has a value textually equal to the
probe address (both trimmed). -/
def blockHasProbeIP (block : List (List Char)) (allowedIP : List Char) : Bool :=
  block.any fun raw =>
    match splitKV (goTrimSpace raw) with
    | some kv =>
      goEqualFold kv.1 (str "AllowedIPs") &&
        decide (goTrimSpace kv.2 = goTrimSpace allowedIP)
    | none => false

/-- Following the spec of the remover output: trailing newlines
normalized to exactly one terminating newline, or empty if nothing
remains. -/
def normalizeTrailingNL (s : List Char) : List Char :=
  if trimRightP (fun c => c = '\n') s = [] then []
  else trimRightP (fun c => c = '\n') s ++ ['\n']

/-- The hedge of the render round-trip claim, for one line that an
interpolated field contributes: the line is not a section header and
does not carry a `ListenPort` key. -/
def benignFieldLine (line : List Char) : Bool :=
  !isSectionHeader (goTrimSpace line) &&
    (match splitKV (goTrimSpace line) with
     | some kv => !goEqualFold kv.1 (str "ListenPort")
     | none => true)

/-- The hedge of the render round-trip claim, for a whole interpolated
field: no newline inside it is followed by a section header or by a
`ListenPort` key (every line the field contributes beyond its first is
benign). -/
def benignField (s : List Char) : Bool :=
  (splitOnChar '\n' s).tail.all benignFieldLine

/-! ## Basic lemmas about the string primitives -/

theorem splitOnChar_ne_nil (sep : Char) (s : List Char) : splitOnChar sep s ≠ [] := by
  induction s with
  | nil => simp [splitOnChar]
  | cons c rest ih =>
    by_cases h : c = sep
    · simp [splitOnChar, h]
    · simp only [splitOnChar, if_neg h]
      cases hr : splitOnChar sep rest with
      | nil => simp
      | cons x xs => simp

theorem splitOnChar_append_cons (sep : Char) (X Y : List Char) :
    splitOnChar sep (X ++ sep :: Y) = splitOnChar sep X ++ splitOnChar sep Y := by
  induction X with
  | nil => simp [splitOnChar]
  | cons c X ih =>
    by_cases h : c = sep
    · simp [splitOnChar, h, ih]
    · simp only [List.cons_append, splitOnChar, if_neg h, List.append_eq]
      cases hX : splitOnChar sep X with
      | nil => exact absurd hX (splitOnChar_ne_nil sep X)
      | cons x xs => rw [ih, hX]; simp

theorem splitOnChar_eq_singleton (sep : Char) (s : List Char)
    (h : ∀ c ∈ s, c ≠ sep) : splitOnChar sep s = [s] := by
  induction s with
  | nil => simp [splitOnChar]
  | cons c rest ih =>
    have hc : c ≠ sep := h c (by simp)
    simp only [splitOnChar, if_neg hc]
    rw [ih fun x hx => h x (by simp [hx])]

theorem splitOnChar_glue (sep : Char) (A s : List Char) (hA : ∀ c ∈ A, c ≠ sep) :
    splitOnChar sep (A ++ s) =
      (A ++ (splitOnChar sep s).headD []) :: (splitOnChar sep s).tail := by
  induction A with
  | nil =>
    cases hs : splitOnChar sep s with
    | nil => exact absurd hs (splitOnChar_ne_nil sep s)
    | cons x xs => simp [hs]
  | cons c A ih =>
    have hc : c ≠ sep := hA c (by simp)
    have ih' := ih fun x hx => hA x (by simp [hx])
    simp only [List.cons_append, splitOnChar, if_neg hc, List.append_eq]
    rw [ih']

theorem splitOnChar_line_glue (sep : Char) (A f B : List Char)
    (hA : ∀ c ∈ A, c ≠ sep) :
    splitOnChar sep (A ++ (f ++ sep :: B)) =
      (A ++ (splitOnChar sep f).headD []) ::
        ((splitOnChar sep f).tail ++ splitOnChar sep B) := by
  rw [show A ++ (f ++ sep :: B) = (A ++ f) ++ sep :: B by simp,
    splitOnChar_append_cons, splitOnChar_glue sep A f hA]
  simp

theorem joinWithChar_splitOnChar (sep : Char) (s : List Char) :
    joinWithChar sep (splitOnChar sep s) = s := by
  induction s with
  | nil => simp [splitOnChar, joinWithChar]
  | cons c rest ih =>
    by_cases h : c = sep
    · subst h
      simp only [splitOnChar, if_pos rfl]
      cases hr : splitOnChar c rest with
      | nil => exact absurd hr (splitOnChar_ne_nil c rest)
      | cons x xs => rw [hr] at ih; simp [joinWithChar, ih]
    · simp only [splitOnChar, if_neg h]
      cases hr : splitOnChar sep rest with
      | nil => exact absurd hr (splitOnChar_ne_nil sep rest)
      | cons x xs =>
        rw [hr] at ih
        cases xs with
        | nil => simp [joinWithChar] at ih ⊢; exact ih
        | cons y ys => simp [joinWithChar] at ih ⊢; exact ih

theorem trimRightP_append (p : Char → Bool) (A x : List Char) :
    trimRightP p (A ++ x) =
      if trimRightP p x = [] then trimRightP p A else A ++ trimRightP p x := by
  unfold trimRightP
  rw [List.reverse_append, List.dropWhile_append]
  by_cases hx : (x.reverse.dropWhile p).isEmpty
  · simp only [if_pos hx]
    rw [if_pos]
    simp only [List.isEmpty_iff] at hx
    simp [hx]
  · simp only [if_neg hx]
    rw [if_neg]
    · simp
    · simp only [List.isEmpty_iff] at hx
      simp [hx]

theorem trimRightP_append_of (p : Char → Bool) (A x : List Char)
    (hA : trimRightP p A = A) : trimRightP p (A ++ x) = A ++ trimRightP p x := by
  rw [trimRightP_append]
  by_cases hx : trimRightP p x = []
  · simp [hx, hA]
  · simp [hx]

theorem trimRightP_eq_self (p : Char → Bool) (s : List Char)
    (h : ∀ c ∈ s, p c = false) : trimRightP p s = s := by
  unfold trimRightP
  rw [List.dropWhile_eq_self_iff.2]
  · simp
  · intro hh
    have hmem : s.reverse.get ⟨0, hh⟩ ∈ s.reverse := List.get_mem s.reverse 0 hh
    rw [List.mem_reverse] at hmem
    have hp := h _ hmem
    simpa using hp

theorem goTrimSpace_cons_of_neg (c : Char) (xs : List Char) (hc : goIsSpace c = false) :
    goTrimSpace (c :: xs) = trimRightP goIsSpace (c :: xs) := by
  unfold goTrimSpace trimLeftP
  rw [List.dropWhile_cons_of_neg (by simp [hc])]

theorem splitAtEq_append (B R : List Char) (hB : ∀ c ∈ B, c ≠ '=') :
    splitAtEq (B ++ '=' :: R) = some (B, R) := by
  induction B with
  | nil => simp [splitAtEq]
  | cons c B ih =>
    have hc : c ≠ '=' := hB c (by simp)
    simp only [List.cons_append, splitAtEq, if_neg hc, List.append_eq]
    rw [ih fun x hx => hB x (by simp [hx])]
    simp

theorem goEqualFold_refl (s : List Char) : goEqualFold s s = true := by
  induction s with
  | nil => rfl
  | cons c cs ih => simp [goEqualFold, ih]

/-! ## Claim C9: idempotence of write-if-changed -/

/-- C9: for every filesystem state, path and candidate content, an
immediately repeated `writeFile` of identical content performs no write
and records no change; the first write records `created` exactly when
the path was absent and `updated` exactly when it existed with different
content, so the pair of writes records exactly one change in total
except when the file already held the candidate content (in which case
clause (a) of the contract records none at all). -/
theorem writeFile_idempotent :
    ∀ (fs : List (List Char × List Char)) (path data : List Char),
      (writeFile (writeFile fs path data).1 path data).2 = none ∧
      (writeFile (writeFile fs path data).1 path data).1 = (writeFile fs path data).1 ∧
      (writeFile fs path data).2 =
        (match fsLookup fs path with
         | none => some (str "created")
         | some old => if old = data then none else some (str "updated")) ∧
      changeCount (writeFile fs path data).2 +
          changeCount (writeFile (writeFile fs path data).1 path data).2 =
        (match fsLookup fs path with
         | none => 1
         | some old => if old = data then 0 else 1) := by
  intro fs path data
  have hcons : fsLookup ((path, data) :: fs) path = some data := by simp [fsLookup]
  cases hl : fsLookup fs path with
  | none => simp [writeFile, hl, hcons, changeCount]
  | some old =>
    by_cases he : old = data
    · subst he
      simp [writeFile, hl, changeCount]
    · simp [writeFile, hl, he, hcons, changeCount]

/-! ## Claim C1: tag precedence in the removal match policy -/

/-- C1 counterexample: a `[Peer]` block whose ownership tag identifies a
different peer (`peer=phone`, while the reference asks for
`peer=laptop`) is nevertheless removed through the AllowedIPs fallback
when its `AllowedIPs` value equals the probe address, refuting the
claimed "never removed via the AllowedIPs fallback". -/
theorem removePeerBlock_fallback_crosses_tag :
    tagMatches (str "# bp-managed: vpn=home,peer=phone")
        ⟨str "home", str "laptop"⟩ = false ∧
    removePeerBlock
        (str "# bp-managed: vpn=home,peer=phone\n[Peer]\nPublicKey = BBB\nAllowedIPs = 69.0.1.2/32\n")
        ⟨str "home", str "laptop"⟩ (str "69.0.1.2/32") = ([], true) := by
  exact ⟨by decide, by decide⟩

/-- C1 (amended): the ownership-tag match is checked before the
AllowedIPs fallback — a tag match accepts the block outright — but a
non-matching tag does not protect the block: the match result is
exactly tag-match OR fallback-match, so a block whose tag identifies a
different peer can still be removed via the AllowedIPs fallback. -/
theorem peerBlockMatches_tag_or_fallback :
    ∀ (block : List (List Char)) (metaLine : List Char) (ref : PeerRef)
      (allowedIP : List Char),
      peerBlockMatches block metaLine ref allowedIP =
        (tagMatches metaLine ref || blockHasProbeIP block allowedIP) := by
  intro block metaLine ref ip
  unfold peerBlockMatches tagMatches blockHasProbeIP
  by_cases h : metaLine ≠ [] ∧ goContains metaLine (str "vpn=" ++ ref.VPN) = true ∧
      goContains metaLine (str "peer=" ++ ref.Peer) = true
  · simp [h]
  · simp [h]

/-! ## Claim C3: two-peer removal scenario -/

/-- C3: on the two-peer VPN text of the repository's own test, removing
the first peer by its reference (tag present) removes exactly the tagged
block together with its tag comment line, returns removed=true, and the
output is the input with those four lines deleted: the second peer's tag
line and block survive verbatim (the blank separator line is re-absorbed
as leading decoration of the surviving block). -/
theorem removePeerBlock_two_peer :
    removePeerBlock
        (str "# bp-managed: vpn=home,peer=laptop\n[Peer]\nPublicKey = AAA\nAllowedIPs = 69.0.1.2/32\n\n# bp-managed: vpn=home,peer=phone\n[Peer]\nPublicKey = BBB\nAllowedIPs = 69.0.1.3/32\n")
        ⟨str "home", str "laptop"⟩ (str "69.0.1.2/32") =
      (str "\n# bp-managed: vpn=home,peer=phone\n[Peer]\nPublicKey = BBB\nAllowedIPs = 69.0.1.3/32\n",
        true) ∧
    goContains
        (str "\n# bp-managed: vpn=home,peer=phone\n[Peer]\nPublicKey = BBB\nAllowedIPs = 69.0.1.3/32\n")
        (str "peer=laptop") = false ∧
    goContains
        (str "\n# bp-managed: vpn=home,peer=phone\n[Peer]\nPublicKey = BBB\nAllowedIPs = 69.0.1.3/32\n")
        (str "# bp-managed: vpn=home,peer=phone\n[Peer]\nPublicKey = BBB\nAllowedIPs = 69.0.1.3/32") = true := by
  exact ⟨by decide, by decide, by decide⟩

/-! ## Claim C2: behaviour when nothing matches -/

/-- C2 counterexample: a content string with no `[Peer]` block (so the
reference matches nothing) is not returned unchanged — the remover
normalizes the missing trailing newline, returning `"x\n"` for input
`"x"` (with removed=false), refuting "returns the input content
unchanged". -/
theorem removePeerBlock_unmatched_not_identity :
    noPeerBlockMatch (str "x") ⟨str "home", str "laptop"⟩ (str "69.0.1.2/32") = true ∧
    removePeerBlock (str "x") ⟨str "home", str "laptop"⟩ (str "69.0.1.2/32") =
      (str "x\n", false) ∧
    str "x\n" ≠ str "x" := by
  exact ⟨by decide, by decide, by decide⟩

/-! ## Claims C4, C5, C6: the allocator -/

theorem foldl_max_filterMap {α : Type} (g : α → Option Int) :
    ∀ (l : List α) (acc : Int),
      l.foldl (fun a x => match g x with
        | some n => if n > a then n else a
        | none => a) acc = (l.filterMap g).foldl max acc := by
  intro l
  induction l with
  | nil => intro acc; simp
  | cons x xs ih =>
    intro acc
    cases hx : g x with
    | none => simp [List.foldl_cons, List.filterMap_cons, hx, ih]
    | some n =>
      simp only [List.foldl_cons, List.filterMap_cons, hx, ih]
      congr 1
      by_cases hgt : n > acc
      · rw [if_pos hgt, max_eq_right (le_of_lt hgt)]
      · rw [if_neg hgt, max_eq_left (by omega)]

/-- C4: next-port allocation equals the spec description — maximum
parsed ListenPort over the files with floor `minPort - 1`, candidate
`max + 1` clamped up to `minPort`, error exactly when the candidate
exceeds `maxPort` — and on the spec's concrete instances: ports
{55107, 55110} in [55107, 55207] give 55111, no files give 55107, and a
file at 55207 exhausts the range. -/
theorem nextAvailablePort_spec :
    (∀ (minPort maxPort : Int) (files : List (List Char)),
        nextAvailablePort minPort maxPort files =
          specNextAvailablePort minPort maxPort files) ∧
    nextAvailablePort 55107 55207
        [str "[Interface]\nListenPort = 55107\n",
         str "[Interface]\nListenPort = 55110\n"] = some 55111 ∧
    nextAvailablePort 55107 55207 [] = some 55107 ∧
    nextAvailablePort 55107 55207 [str "[Interface]\nListenPort = 55207\n"] = none := by
  refine ⟨?_, by decide, by decide, by decide⟩
  intro minPort maxPort files
  have key : files.foldl (fun acc f =>
      if firstSectionValue f (str "Interface") (str "ListenPort") = [] then acc
      else match goAtoi (firstSectionValue f (str "Interface") (str "ListenPort")) with
        | some n => if n > acc then n else acc
        | none => acc) (minPort - 1) =
      (specListenPorts files).foldl max (minPort - 1) := by
    rw [specListenPorts, ← foldl_max_filterMap]
    apply List.foldl_ext
    intro a f _
    by_cases h : firstSectionValue f (str "Interface") (str "ListenPort") = []
    · simp [h]
    · simp [h]
  unfold nextAvailablePort specNextAvailablePort
  rw [key]

/-- C5: next-peer-host-octet allocation equals the spec description —
all `[Peer].AllowedIPs` values filtered to those parsing against the
configured two-octet `pfx` with vpn octet equal to the target, maximum
host octet with floor 1, candidate `max + 1`, error exactly when it
exceeds 254 — and on the spec's concrete instances: host octets {2, 3}
give 4, and a config with no peer blocks gives 2. -/
theorem nextPeerHostOctet_spec :
    (∀ (pfx vpnConfig : List Char) (vpnOctet : Int),
        nextPeerHostOctet pfx vpnConfig vpnOctet =
          specNextPeerHostOctet pfx vpnConfig vpnOctet) ∧
    nextPeerHostOctet (str "69.0")
        (str "[Interface]\nAddress = 69.0.1.1/24\n\n[Peer]\nAllowedIPs = 69.0.1.2/32\n\n[Peer]\nAllowedIPs = 69.0.1.3/32\n")
        1 = some 4 ∧
    nextPeerHostOctet (str "69.0") (str "[Interface]\nAddress = 69.0.1.1/24\n") 1 =
      some 2 := by
  refine ⟨?_, by decide, by decide⟩
  intro pfx vpnConfig vpnOctet
  have key : (allSectionValues vpnConfig (str "Peer") (str "AllowedIPs")).foldl
      (fun acc ip => match parseBPAddress pfx ip with
        | some pr => if pr.1 ≠ vpnOctet then acc else if pr.2 > acc then pr.2 else acc
        | none => acc) 1 =
      (specPeerHostOctets pfx vpnConfig vpnOctet).foldl max 1 := by
    rw [specPeerHostOctets, ← foldl_max_filterMap]
    apply List.foldl_ext
    intro a ip _
    cases hp : parseBPAddress pfx ip with
    | none => simp
    | some pr =>
      by_cases hv : pr.1 = vpnOctet
      · simp [hv]
      · simp [hv]
  unfold nextPeerHostOctet specNextPeerHostOctet
  rw [key]

/-- C6: next-vpn-octet allocation equals the spec description — each
file's `[Interface].Address` parsed against the two-octet `pfx`,
unparsable or non-matching entries ignored, maximum vpn octet with
default 0, candidate `max + 1`, error exactly when it exceeds 254 — and
on the spec's concrete instances: octets {1, 2} give 3, no files
give 1. -/
theorem nextVPNSubnetOctet_spec :
    (∀ (pfx : List Char) (files : List (List Char)),
        nextVPNSubnetOctet pfx files = specNextVPNSubnetOctet pfx files) ∧
    nextVPNSubnetOctet (str "69.0")
        [str "[Interface]\nAddress = 69.0.1.1/24\n",
         str "[Interface]\nAddress = 69.0.2.1/24\n"] = some 3 ∧
    nextVPNSubnetOctet (str "69.0") [] = some 1 := by
  refine ⟨?_, by decide, by decide⟩
  intro pfx files
  have key : files.foldl (fun acc f =>
      if firstSectionValue f (str "Interface") (str "Address") = [] then acc
      else match parseBPAddress pfx (firstSectionValue f (str "Interface") (str "Address")) with
        | some pr => if pr.1 > acc then pr.1 else acc
        | none => acc) 0 =
      (specVPNOctets pfx files).foldl max 0 := by
    rw [specVPNOctets, ← foldl_max_filterMap]
    apply List.foldl_ext
    intro a f _
    by_cases h : firstSectionValue f (str "Interface") (str "Address") = []
    · simp [h]
    · cases hp : parseBPAddress pfx (firstSectionValue f (str "Interface") (str "Address")) with
      | none => simp [h, hp]
      | some pr => simp [h, hp]
  unfold nextVPNSubnetOctet specNextVPNSubnetOctet
  rw [key]

/-! ## Claims C7, C10: the codec queries -/

theorem firstLoop_finds (sectionName key : List Char) :
    ∀ (lines : List (List Char)) (sect : List Char),
      firstSectionValueLoop sectionName key lines sect =
        (match (iniEntriesLoop lines sect).find? (fun e =>
            decide (e.1 = sectionName) && goEqualFold e.2.1 key) with
         | some e => e.2.2
         | none => []) := by
  intro lines
  induction lines with
  | nil => intro sect; simp [firstSectionValueLoop, iniEntriesLoop]
  | cons raw rest ih =>
    intro sect
    simp only [firstSectionValueLoop, iniEntriesLoop]
    by_cases h1 : goTrimSpace raw = [] ∨ goHasPfx (str "#") (goTrimSpace raw) = true ∨
        goHasPfx (str ";") (goTrimSpace raw) = true
    · rw [if_pos h1, if_pos h1, ih]
    · rw [if_neg h1, if_neg h1]
      by_cases h2 : isSectionHeader (goTrimSpace raw) = true
      · rw [if_pos h2, if_pos h2, ih]
      · rw [if_neg h2, if_neg h2]
        cases hkv : splitKV (goTrimSpace raw) with
        | none =>
          dsimp only
          by_cases h3 : sect ≠ sectionName
          · rw [if_pos h3, ih]
          · rw [if_neg h3, ih]
        | some kv =>
          dsimp only
          by_cases h3 : sect ≠ sectionName
          · rw [if_pos h3, ih,
              List.find?_cons_of_neg _ (by simp [h3])]
          · rw [if_neg h3]
            rw [not_not] at h3
            by_cases h4 : goEqualFold kv.1 key = true
            · rw [if_pos h4, List.find?_cons_of_pos _ (by simp [h3, h4])]
            · rw [if_neg h4, ih,
                List.find?_cons_of_neg _ (by simp [h4])]

theorem allLoop_filters (sectionName key : List Char) :
    ∀ (lines : List (List Char)) (sect : List Char),
      allSectionValuesLoop sectionName key lines sect =
        ((iniEntriesLoop lines sect).filter (fun e =>
            decide (e.1 = sectionName) && goEqualFold e.2.1 key)).map fun e => e.2.2 := by
  intro lines
  induction lines with
  | nil => intro sect; simp [allSectionValuesLoop, iniEntriesLoop]
  | cons raw rest ih =>
    intro sect
    simp only [allSectionValuesLoop, iniEntriesLoop]
    by_cases h1 : goTrimSpace raw = [] ∨ goHasPfx (str "#") (goTrimSpace raw) = true ∨
        goHasPfx (str ";") (goTrimSpace raw) = true
    · rw [if_pos h1, if_pos h1, ih]
    · rw [if_neg h1, if_neg h1]
      by_cases h2 : isSectionHeader (goTrimSpace raw) = true
      · rw [if_pos h2, if_pos h2, ih]
      · rw [if_neg h2, if_neg h2]
        cases hkv : splitKV (goTrimSpace raw) with
        | none =>
          dsimp only
          by_cases h3 : sect ≠ sectionName
          · rw [if_pos h3, ih]
          · rw [if_neg h3, ih]
        | some kv =>
          dsimp only
          by_cases h3 : sect ≠ sectionName
          · rw [if_pos h3, ih, List.filter_cons_of_neg (by simp [h3])]
          · rw [if_neg h3]
            rw [not_not] at h3
            by_cases h4 : goEqualFold kv.1 key = true
            · rw [if_pos h4, ih, List.filter_cons_of_pos (by simp [h3, h4])]
              simp
            · rw [if_neg h4, ih, List.filter_cons_of_neg (by simp [h4])]

/-- C7: `firstSectionValue` is exactly the spec-described scan — it
returns the value of the first entry, in the top-to-bottom entry list
produced by tracking `[Name]` section headers, skipping blank and
`#`/`;` comment lines and splitting the rest on the first `=` with both
sides trimmed, whose section equals the request exactly and whose key
matches case-insensitively, and the empty string when no entry
matches. -/
theorem firstSectionValue_spec :
    ∀ (content sectionName key : List Char),
      firstSectionValue content sectionName key =
        specFirstValue content sectionName key := by
  intro content sectionName key
  unfold firstSectionValue specFirstValue iniEntries
  exact firstLoop_finds sectionName key (splitOnChar '\n' content) []

/-- C10: in both codec queries the section name is compared by exact,
case-sensitive equality while the key is compared case-insensitively:
`allSectionValues` is the spec scan filtered by exact section equality
and key folding, a query for section `Interface` finds nothing under a
header written `[interface]` (in either query), and a key written
`listenport` matches a query for `ListenPort` (in either query). -/
theorem section_exact_key_folded :
    (∀ (content sectionName key : List Char),
        allSectionValues content sectionName key =
          specAllValues content sectionName key) ∧
    firstSectionValue (str "[interface]\nListenPort = 5\n")
        (str "Interface") (str "ListenPort") = [] ∧
    allSectionValues (str "[interface]\nListenPort = 5\n")
        (str "Interface") (str "ListenPort") = [] ∧
    firstSectionValue (str "[Interface]\nlistenport = 5\n")
        (str "Interface") (str "ListenPort") = str "5" ∧
    allSectionValues (str "[Interface]\nlistenport = 5\n")
        (str "Interface") (str "ListenPort") = [str "5"] := by
  refine ⟨?_, by decide, by decide, by decide, by decide⟩
  intro content sectionName key
  unfold allSectionValues specAllValues iniEntries
  exact allLoop_filters sectionName key (splitOnChar '\n' content) []

/-! ## Claim C2 (amended): no-match leaves the content, up to trailing
newline normalization -/

theorem matchesAt_of_ge (lines : List (List Char)) (ref : PeerRef) (ip : List Char)
    (i : Nat) (h : lines.length ≤ i) : matchesAt lines ref ip i = false := by
  unfold matchesAt
  rw [List.getD_eq_default _ _ h]
  simp [goTrimSpace, trimLeftP, trimRightP, str]

theorem removeLoop_noMatch (lines : List (List Char)) (ref : PeerRef) (ip : List Char)
    (h : ∀ i, matchesAt lines ref ip i = false) :
    ∀ (fuel i : Nat) (out : List (List Char)) (removed : Bool),
      lines.length - i ≤ fuel →
      removeLoop lines ref ip fuel i out removed = (out ++ lines.drop i, removed) := by
  intro fuel
  induction fuel with
  | zero =>
    intro i out removed hle
    have hge : lines.length ≤ i := by omega
    rw [List.drop_eq_nil_of_le hge]
    simp [removeLoop]
  | succ fuel ih =>
    intro i out removed hle
    by_cases hi : i < lines.length
    · have hstep : lines.getD i [] :: lines.drop (i + 1) = lines.drop i := by
        rw [List.getD_eq_getElem _ _ hi, ← List.drop_eq_getElem_cons hi]
      by_cases ht : goTrimSpace (lines.getD i []) ≠ str "[Peer]"
      · simp only [removeLoop]
        rw [if_pos hi, if_pos ht, ih (i + 1) _ removed (by omega),
          List.append_assoc, List.singleton_append, hstep]
      · rw [not_not] at ht
        have hpbm : peerBlockMatches (blockAt lines i) (metaAt lines i) ref ip = false := by
          have hm := h i
          unfold matchesAt at hm
          simp only [Bool.and_eq_false_iff, decide_eq_false_iff_not] at hm
          rcases hm with hm | hm
          · exact absurd ht hm
          · exact hm
        simp only [removeLoop]
        rw [if_pos hi, if_neg (by simpa using ht), if_neg (by simp [hpbm]),
          ih (i + 1) _ removed (by omega),
          List.append_assoc, List.singleton_append, hstep]
    · simp only [removeLoop]
      rw [if_neg hi, List.drop_eq_nil_of_le (by omega)]
      simp

/-- C2 (amended): for every content, reference and probe address that
match no `[Peer]` block in the text, `removePeerBlock` returns
removed=false and the input content with trailing newlines normalized to
exactly one terminating newline (empty if nothing remains); in
particular content that is empty or already ends in exactly one newline
comes back byte-identical, but content without a trailing newline gains
one. -/
theorem removePeerBlock_unmatched (content : List Char) (ref : PeerRef)
    (allowedIP : List Char) (h : noPeerBlockMatch content ref allowedIP = true) :
    removePeerBlock content ref allowedIP = (normalizeTrailingNL content, false) := by
  have hall : ∀ i, matchesAt (splitOnChar '\n' content) ref allowedIP i = false := by
    intro i
    by_cases hi : i < (splitOnChar '\n' content).length
    · have := (List.all_eq_true.1 h) i (List.mem_range.2 hi)
      simpa using this
    · exact matchesAt_of_ge _ _ _ _ (by omega)
  unfold removePeerBlock
  rw [removeLoop_noMatch _ _ _ hall _ 0 [] false (by omega)]
  simp only [List.nil_append, List.drop_zero]
  rw [joinWithChar_splitOnChar]
  rfl

/-- Witness for the amended C2 at a concrete no-match input (a config
with an Interface section only); here the content already ends in one
newline, so normalization returns it unchanged. -/
theorem removePeerBlock_unmatched_witness :
    noPeerBlockMatch (str "[Interface]\nListenPort = 5\n")
        ⟨str "home", str "laptop"⟩ (str "69.0.1.2/32") = true ∧
    removePeerBlock (str "[Interface]\nListenPort = 5\n")
        ⟨str "home", str "laptop"⟩ (str "69.0.1.2/32") =
      (normalizeTrailingNL (str "[Interface]\nListenPort = 5\n"), false) :=
  ⟨by decide, removePeerBlock_unmatched _ _ _ (by decide)⟩

/-! ## Claim C8: render-then-parse round trip -/

theorem natToStrAux_digit :
    ∀ (fuel n : Nat), n < fuel → ∀ c ∈ natToStrAux fuel n,
      48 ≤ c.toNat ∧ c.toNat ≤ 57 := by
  intro fuel
  induction fuel with
  | zero => intro n hn; omega
  | succ fuel ih =>
    intro n hn c hc
    by_cases h10 : n < 10
    · rw [natToStrAux, if_pos h10] at hc
      simp only [List.mem_singleton] at hc
      subst hc
      interval_cases n <;> decide
    · rw [natToStrAux, if_neg h10] at hc
      rcases List.mem_append.1 hc with h | h
      · have hdiv : n / 10 < n := Nat.div_lt_self (by omega) (by omega)
        exact ih (n / 10) (by omega) c h
      · simp only [List.mem_singleton] at h
        subst h
        have hm : n % 10 < 10 := Nat.mod_lt _ (by omega)
        set m := n % 10 with hmdef
        clear_value m
        interval_cases m <;> decide

theorem digit_not_space (c : Char) (h1 : 48 ≤ c.toNat) (h2 : c.toNat ≤ 57) :
    goIsSpace c = false := by
  simp only [goIsSpace, decide_eq_false_iff_not]
  omega

theorem intToStr_not_space (i : Int) : ∀ c ∈ intToStr i, goIsSpace c = false := by
  intro c hc
  unfold intToStr at hc
  by_cases hneg : i < 0
  · rw [if_pos hneg] at hc
    rcases List.mem_cons.1 hc with h | h
    · subst h; decide
    · have := natToStrAux_digit _ _ (Nat.lt_succ_self _) c h
      exact digit_not_space c this.1 this.2
  · rw [if_neg hneg] at hc
    have := natToStrAux_digit _ _ (Nat.lt_succ_self _) c hc
    exact digit_not_space c this.1 this.2

theorem intToStr_no_newline (i : Int) : ∀ c ∈ intToStr i, c ≠ '\n' := by
  intro c hc heq
  have := intToStr_not_space i c hc
  subst heq
  exact absurd this (by decide)

theorem natToStrAux_ne_nil (fuel n : Nat) (h : n < fuel) : natToStrAux fuel n ≠ [] := by
  cases fuel with
  | zero => omega
  | succ fuel =>
    rw [natToStrAux]
    by_cases h10 : n < 10
    · simp [if_pos h10]
    · simp [if_neg h10]

theorem intToStr_ne_nil (i : Int) : intToStr i ≠ [] := by
  unfold intToStr
  by_cases hneg : i < 0
  · simp [if_pos hneg]
  · rw [if_neg hneg]
    exact natToStrAux_ne_nil _ _ (Nat.lt_succ_self _)

theorem dropWhile_eq_self_of (p : Char → Bool) (s : List Char)
    (h : ∀ c ∈ s, p c = false) : s.dropWhile p = s := by
  cases s with
  | nil => rfl
  | cons c cs => exact List.dropWhile_cons_of_neg (by simp [h c (by simp)])

theorem goHasPfx_of_append (p : List Char) :
    ∀ (A x : List Char), goHasPfx p A = true → goHasPfx p (A ++ x) = true := by
  induction p with
  | nil => intro A x h; simp [goHasPfx, List.isPrefixOf]
  | cons c p ih =>
    intro A x h
    cases A with
    | nil => simp [goHasPfx, List.isPrefixOf] at h
    | cons a A2 =>
      rw [List.cons_append]
      unfold goHasPfx at h ⊢
      simp only [List.isPrefixOf] at h ⊢
      rw [Bool.and_eq_true] at h ⊢
      exact ⟨h.1, ih A2 x h.2⟩

theorem goTrimSpace_fixed (A x : List Char) (hne : A ≠ [])
    (hhead : goIsSpace (A.headD ' ') = false)
    (hA : trimRightP goIsSpace A = A) :
    goTrimSpace (A ++ x) = A ++ trimRightP goIsSpace x := by
  cases A with
  | nil => exact absurd rfl hne
  | cons c A' =>
    simp only [List.headD_cons] at hhead
    rw [List.cons_append, goTrimSpace_cons_of_neg c _ hhead, ← List.cons_append]
    exact trimRightP_append_of _ _ _ hA

theorem isSectionHeader_false_of_head (c : Char) (x : List Char) (hc : c ≠ '[') :
    isSectionHeader (c :: x) = false := by
  unfold isSectionHeader goHasPfx
  have hpfx : (str "[").isPrefixOf (c :: x) = false := by
    simp only [str]
    show List.isPrefixOf ['['] (c :: x) = false
    simp [List.isPrefixOf]
    intro h
    exact absurd h.symm hc
  simp [hpfx]

theorem skipCond_false_of_head (c : Char) (x : List Char)
    (h1 : c ≠ '#') (h2 : c ≠ ';') :
    ¬(c :: x = [] ∨ goHasPfx (str "#") (c :: x) = true ∨
        goHasPfx (str ";") (c :: x) = true) := by
  push_neg
  refine ⟨by simp, ?_, ?_⟩
  · unfold goHasPfx
    simp only [str]
    show ¬List.isPrefixOf ['#'] (c :: x) = true
    simp [List.isPrefixOf]
    intro h
    exact absurd h.symm h1
  · unfold goHasPfx
    simp only [str]
    show ¬List.isPrefixOf [';'] (c :: x) = true
    simp [List.isPrefixOf]
    intro h
    exact absurd h.symm h2

theorem loop_cons_skip (sectionName key raw : List Char) (rest : List (List Char))
    (sect : List Char)
    (h : goTrimSpace raw = [] ∨ goHasPfx (str "#") (goTrimSpace raw) = true ∨
        goHasPfx (str ";") (goTrimSpace raw) = true) :
    firstSectionValueLoop sectionName key (raw :: rest) sect =
      firstSectionValueLoop sectionName key rest sect := by
  simp only [firstSectionValueLoop]
  rw [if_pos h]

theorem loop_cons_header (sectionName key raw : List Char) (rest : List (List Char))
    (sect : List Char)
    (h1 : ¬(goTrimSpace raw = [] ∨ goHasPfx (str "#") (goTrimSpace raw) = true ∨
        goHasPfx (str ";") (goTrimSpace raw) = true))
    (h2 : isSectionHeader (goTrimSpace raw) = true) :
    firstSectionValueLoop sectionName key (raw :: rest) sect =
      firstSectionValueLoop sectionName key rest (sectionOfHeader (goTrimSpace raw)) := by
  simp only [firstSectionValueLoop]
  rw [if_neg h1, if_pos h2]

theorem loop_cons_hit (sectionName key raw : List Char) (rest : List (List Char))
    (sect : List Char) (kv : List Char × List Char)
    (h1 : ¬(goTrimSpace raw = [] ∨ goHasPfx (str "#") (goTrimSpace raw) = true ∨
        goHasPfx (str ";") (goTrimSpace raw) = true))
    (h2 : isSectionHeader (goTrimSpace raw) = false)
    (h3 : sect = sectionName)
    (hkv : splitKV (goTrimSpace raw) = some kv)
    (h4 : goEqualFold kv.1 key = true) :
    firstSectionValueLoop sectionName key (raw :: rest) sect = kv.2 := by
  simp only [firstSectionValueLoop]
  rw [if_neg h1, if_neg (by simp [h2]), if_neg (by simp [h3]), hkv]
  dsimp only
  rw [if_pos h4]

theorem loop_pass_benign (sectionName : List Char) :
    ∀ (L : List (List Char)), (∀ z ∈ L, benignFieldLine z = true) →
      ∀ (rest : List (List Char)) (sect : List Char),
        firstSectionValueLoop sectionName (str "ListenPort") (L ++ rest) sect =
          firstSectionValueLoop sectionName (str "ListenPort") rest sect := by
  intro L
  induction L with
  | nil => intro _ rest sect; simp
  | cons z L ih =>
    intro hL rest sect
    have hz := hL z (by simp)
    unfold benignFieldLine at hz
    rw [Bool.and_eq_true] at hz
    obtain ⟨hh, hkvb⟩ := hz
    rw [Bool.not_eq_true'] at hh
    rw [List.cons_append]
    by_cases hskip : goTrimSpace z = [] ∨ goHasPfx (str "#") (goTrimSpace z) = true ∨
        goHasPfx (str ";") (goTrimSpace z) = true
    · rw [loop_cons_skip _ _ _ _ _ hskip]
      exact ih (fun x hx => hL x (by simp [hx])) rest sect
    · simp only [firstSectionValueLoop]
      rw [if_neg hskip, if_neg (by simp [hh])]
      by_cases h3 : sect ≠ sectionName
      · rw [if_pos h3]
        exact ih (fun x hx => hL x (by simp [hx])) rest sect
      · rw [if_neg h3]
        cases hkv2 : splitKV (goTrimSpace z) with
        | none =>
          dsimp only
          exact ih (fun x hx => hL x (by simp [hx])) rest sect
        | some kv =>
          dsimp only
          rw [hkv2] at hkvb
          dsimp only at hkvb
          rw [Bool.not_eq_true'] at hkvb
          rw [if_neg (by simp [hkvb])]
          exact ih (fun x hx => hL x (by simp [hx])) rest sect

theorem trimRight_space_intToStr (port : Int) :
    trimRightP goIsSpace (' ' :: intToStr port) = ' ' :: intToStr port := by
  rw [show (' ' :: intToStr port) = [' '] ++ intToStr port from rfl, trimRightP_append]
  rw [trimRightP_eq_self _ _ (intToStr_not_space port)]
  rw [if_neg (intToStr_ne_nil port)]

theorem goTrimSpace_space_intToStr (port : Int) :
    goTrimSpace (' ' :: intToStr port) = intToStr port := by
  unfold goTrimSpace trimLeftP
  rw [List.dropWhile_cons_of_pos (by decide)]
  rw [dropWhile_eq_self_of _ _ (intToStr_not_space port)]
  exact trimRightP_eq_self _ _ (intToStr_not_space port)

theorem benign_pk_line (p0 : List Char) :
    benignFieldLine (str "PrivateKey = " ++ p0) = true := by
  unfold benignFieldLine
  have htrim : goTrimSpace (str "PrivateKey = " ++ p0) =
      str "PrivateKey =" ++ trimRightP goIsSpace (' ' :: p0) := by
    rw [show str "PrivateKey = " ++ p0 = str "PrivateKey =" ++ (' ' :: p0) from rfl]
    exact goTrimSpace_fixed _ _ (by decide) (by decide) (by decide)
  rw [htrim]
  have hsplit : splitKV (str "PrivateKey =" ++ trimRightP goIsSpace (' ' :: p0)) =
      some (str "PrivateKey", goTrimSpace (trimRightP goIsSpace (' ' :: p0))) := by
    unfold splitKV
    rw [show str "PrivateKey =" ++ trimRightP goIsSpace (' ' :: p0) =
        str "PrivateKey " ++ '=' :: trimRightP goIsSpace (' ' :: p0) from rfl]
    rw [splitAtEq_append _ _ (by decide)]
    dsimp only
    rw [if_neg (by decide)]
    rw [show goTrimSpace (str "PrivateKey ") = str "PrivateKey" from by decide]
  rw [hsplit]
  dsimp only
  rw [show str "PrivateKey =" ++ trimRightP goIsSpace (' ' :: p0) =
      'P' :: (str "rivateKey =" ++ trimRightP goIsSpace (' ' :: p0)) from rfl]
  rw [isSectionHeader_false_of_head _ _ (by decide)]
  rw [show goEqualFold (str "PrivateKey") (str "ListenPort") = false from by decide]
  rfl

theorem lp_line_trim (port : Int) :
    goTrimSpace (str "ListenPort = " ++ intToStr port) =
      str "ListenPort = " ++ intToStr port := by
  rw [show str "ListenPort = " ++ intToStr port =
      str "ListenPort =" ++ (' ' :: intToStr port) from rfl]
  rw [goTrimSpace_fixed _ _ (by decide) (by decide) (by decide)]
  rw [trimRight_space_intToStr]

theorem lp_line_splitKV (port : Int) :
    splitKV (str "ListenPort = " ++ intToStr port) =
      some (str "ListenPort", intToStr port) := by
  unfold splitKV
  rw [show str "ListenPort = " ++ intToStr port =
      str "ListenPort " ++ '=' :: (' ' :: intToStr port) from rfl]
  rw [splitAtEq_append _ _ (by decide)]
  dsimp only
  rw [if_neg (by decide)]
  rw [show goTrimSpace (str "ListenPort ") = str "ListenPort" from by decide]
  rw [goTrimSpace_space_intToStr]

theorem loop_pass_benign_cons (sectionName z : List Char) (L rest : List (List Char))
    (sect : List Char) (hz : benignFieldLine z = true)
    (hL : ∀ x ∈ L, benignFieldLine x = true) :
    firstSectionValueLoop sectionName (str "ListenPort") (z :: (L ++ rest)) sect =
      firstSectionValueLoop sectionName (str "ListenPort") rest sect := by
  have h := loop_pass_benign sectionName (z :: L)
    (by
      intro x hx
      rcases List.mem_cons.1 hx with h | h
      · subst h; exact hz
      · exact hL x h) rest sect
  simpa using h

/-- C8: the render-then-parse round trip.  For every port and every
choice of the other rendering inputs whose interpolated fields ahead of
the ListenPort line (the vpn name in the tag comment and the private
key) contribute no line that is a section header or carries a
`ListenPort` key, querying the rendered VPN config for
`Interface.ListenPort` returns exactly the decimal rendering of the port
passed to render. -/
theorem renderVPNConfig_roundtrip (pfx : List Char) (ifaceMask : Int)
    (vpnName ifaceName privateKey : List Char) (port vpnOctet : Int)
    (publicIface : List Char)
    (hv : benignField vpnName = true) (hp : benignField privateKey = true) :
    firstSectionValue
        (renderVPNConfig pfx ifaceMask vpnName ifaceName privateKey port vpnOctet
          publicIface)
        (str "Interface") (str "ListenPort") = intToStr port := by
  have hVT : ∀ z ∈ (splitOnChar '\n' vpnName).tail, benignFieldLine z = true := by
    intro z hz
    exact List.all_eq_true.1 hv z hz
  have hPT : ∀ z ∈ (splitOnChar '\n' privateKey).tail, benignFieldLine z = true := by
    intro z hz
    exact List.all_eq_true.1 hp z hz
  have htrim1 : goTrimSpace
      (str "# bp-managed: vpn=" ++ (splitOnChar '\n' vpnName).headD []) =
      str "# bp-managed: vpn=" ++
        trimRightP goIsSpace ((splitOnChar '\n' vpnName).headD []) :=
    goTrimSpace_fixed _ _ (by decide) (by decide) (by decide)
  have hskip : goTrimSpace
        (str "# bp-managed: vpn=" ++ (splitOnChar '\n' vpnName).headD []) = [] ∨
      goHasPfx (str "#") (goTrimSpace
        (str "# bp-managed: vpn=" ++ (splitOnChar '\n' vpnName).headD [])) = true ∨
      goHasPfx (str ";") (goTrimSpace
        (str "# bp-managed: vpn=" ++ (splitOnChar '\n' vpnName).headD [])) = true := by
    refine Or.inr (Or.inl ?_)
    rw [htrim1]
    exact goHasPfx_of_append _ _ _ (by decide)
  have h1lp : ¬(goTrimSpace (str "ListenPort = " ++ intToStr port) = [] ∨
      goHasPfx (str "#") (goTrimSpace (str "ListenPort = " ++ intToStr port)) = true ∨
      goHasPfx (str ";") (goTrimSpace (str "ListenPort = " ++ intToStr port)) = true) := by
    rw [lp_line_trim]
    rw [show str "ListenPort = " ++ intToStr port =
        'L' :: (str "istenPort = " ++ intToStr port) from rfl]
    exact skipCond_false_of_head _ _ (by decide) (by decide)
  have h2lp : isSectionHeader (goTrimSpace (str "ListenPort = " ++ intToStr port)) = false := by
    rw [lp_line_trim]
    rw [show str "ListenPort = " ++ intToStr port =
        'L' :: (str "istenPort = " ++ intToStr port) from rfl]
    exact isSectionHeader_false_of_head _ _ (by decide)
  have hkvlp : splitKV (goTrimSpace (str "ListenPort = " ++ intToStr port)) =
      some (str "ListenPort", intToStr port) := by
    rw [lp_line_trim]
    exact lp_line_splitKV port
  unfold firstSectionValue renderVPNConfig
  simp only [List.append_assoc, List.cons_append]
  rw [splitOnChar_line_glue '\n' (str "# bp-managed: vpn=") vpnName _ (by decide)]
  rw [splitOnChar_append_cons]
  rw [show splitOnChar '\n' (str "[Interface]") = [str "[Interface]"] from by decide]
  rw [splitOnChar_line_glue '\n' (str "PrivateKey = ") privateKey _ (by decide)]
  rw [splitOnChar_line_glue '\n' (str "ListenPort = ") (intToStr port) _ (by decide)]
  rw [splitOnChar_eq_singleton '\n' (intToStr port) (intToStr_no_newline port)]
  simp only [List.singleton_append, List.headD_cons, List.tail_cons, List.nil_append]
  rw [loop_cons_skip _ _ _ _ _ hskip]
  rw [loop_pass_benign _ _ hVT]
  rw [loop_cons_header _ _ _ _ _ (by decide) (by decide)]
  rw [show sectionOfHeader (goTrimSpace (str "[Interface]")) = str "Interface" from by decide]
  rw [loop_pass_benign_cons _ _ _ _ _ (benign_pk_line _) hPT]
  rw [loop_cons_hit _ _ _ _ _ (str "ListenPort", intToStr port) h1lp h2lp rfl hkvlp
    (goEqualFold_refl _)]

/-- Witness for C8 at concrete rendering inputs (the defaults of the
repository: subnet `69.0`, mask 24, port 55107, vpn octet 1). -/
theorem renderVPNConfig_roundtrip_witness :
    benignField (str "home") = true ∧ benignField (str "KEY") = true ∧
    firstSectionValue
        (renderVPNConfig (str "69.0") 24 (str "home") (str "bp-home") (str "KEY")
          55107 1 (str "eth0"))
        (str "Interface") (str "ListenPort") = intToStr 55107 :=
  ⟨by decide, by decide,
    renderVPNConfig_roundtrip _ _ _ _ _ _ _ _ (by decide) (by decide)⟩
